import Mathlib

/-!
Verification of the mcp-hubspot repository against its specification.

Part 1 embeds the TypeScript deals layer found under src/ (deals router,
DealsController and DealsService).  The remote HubSpot client is an external
collaborator; it is embedded as a record of call outcomes, so every theorem
quantifies over all possible remote behaviours.

Part 2 models the dual-store synchronized cache (KeyValueStore, VectorIndex,
RefreshOrchestrator, similarity query) from the specification, since that code
is part of the repository but not present under src/.
-/

namespace Hubspot

/-- Failure taxonomy of the remote HubSpot client, as in the specification:
auth, rate limit, not-found and transient network failures, each signalled as
a distinguishable error thrown by the client. -/
inductive RemoteError where
  | auth
  | rateLimit
  | notFound
  | transientNetwork
  | other (msg : String)
deriving DecidableEq

/-- A deal object as returned by the remote client
(SimplePublicObjectWithAssociations): an id plus a property map. -/
structure Deal where
  id : String
  properties : List (String × String)
deriving DecidableEq

/-- The request body of create/update calls (the TypeScript dealData). -/
abbrev DealData := List (String × String)

/-- The payload handed to the remote client's create/update calls:
the TypeScript object literal with a single properties field. -/
structure ObjectInput where
  properties : DealData
deriving DecidableEq

/-- One search filter, as built by DealsService.getDealsByPipeline. -/
structure SearchFilterItem where
  propertyName : String
  operator : String
  value : String
deriving DecidableEq

/-- A group of filters in a search request. -/
structure FilterGroup where
  filters : List SearchFilterItem
deriving DecidableEq

/-- The search request object passed to searchApi.doSearch. -/
structure SearchRequest where
  filterGroups : List FilterGroup
deriving DecidableEq

/-- A paged response from the remote client, of which the service reads
the results field. -/
structure DealsPage where
  results : List Deal
deriving DecidableEq

/-- The remote HubSpot client (client.crm.deals), embedded as the outcome of
each call it offers.  An Except.error outcome is the client throwing. -/
structure HubspotClient where
  getAll : Except RemoteError DealsPage
  doSearch : SearchRequest → Except RemoteError DealsPage
  getById : String → Except RemoteError Deal
  create : ObjectInput → Except RemoteError Deal
  update : String → ObjectInput → Except RemoteError Deal

namespace DealsService

/-- DealsService.getAllDeals: await client.crm.deals.getAll(), return
apiResponse.results; on error, log and rethrow the same error. -/
def getAllDeals (c : HubspotClient) : Except RemoteError (List Deal) :=
  match c.getAll with
  | .ok apiResponse => .ok apiResponse.results
  | .error e => .error e

/-- DealsService.getDealsByPipeline: build the filter object with one filter
group holding the single pipeline equality filter, call searchApi.doSearch,
return apiResponse.results; on error, log and rethrow the same error. -/
def getDealsByPipeline (c : HubspotClient) (pipelineId : String) :
    Except RemoteError (List Deal) :=
  let filter : SearchRequest :=
    { filterGroups := [{ filters := [{ propertyName := "pipeline",
                                       operator := "EQ",
                                       value := pipelineId }] }] }
  match c.doSearch filter with
  | .ok apiResponse => .ok apiResponse.results
  | .error e => .error e

/-- DealsService.getDealById: return await basicApi.getById(dealId); on error,
log and rethrow the same error. -/
def getDealById (c : HubspotClient) (dealId : String) :
    Except RemoteError Deal :=
  match c.getById dealId with
  | .ok deal => .ok deal
  | .error e => .error e

/-- DealsService.createDeal: return await basicApi.create({ properties:
dealData }); on error, log and rethrow the same error. -/
def createDeal (c : HubspotClient) (dealData : DealData) :
    Except RemoteError Deal :=
  match c.create { properties := dealData } with
  | .ok deal => .ok deal
  | .error e => .error e

/-- DealsService.updateDeal: return await basicApi.update(dealId,
{ properties: dealData }); on error, log and rethrow the same error. -/
def updateDeal (c : HubspotClient) (dealId : String) (dealData : DealData) :
    Except RemoteError Deal :=
  match c.update dealId { properties := dealData } with
  | .ok deal => .ok deal
  | .error e => .error e

end DealsService

/-- The body of an HTTP response produced by the controller: a JSON list of
deals, a single JSON deal, or an error object with a message. -/
inductive ResBody where
  | dealsJson (deals : List Deal)
  | dealJson (deal : Deal)
  | errJson (error : String)
deriving DecidableEq

/-- An HTTP response: status code plus JSON body.  res.json without an
explicit status uses the Express default status 200. -/
structure HttpResponse where
  status : Nat
  body : ResBody
deriving DecidableEq

namespace DealsController

/-- DealsController.getAllDeals: try res.json(deals); catch
res.status(500).json({ error: 'Failed to fetch deals' }). -/
def getAllDeals (c : HubspotClient) : HttpResponse :=
  match DealsService.getAllDeals c with
  | .ok deals => { status := 200, body := .dealsJson deals }
  | .error _ => { status := 500, body := .errJson "Failed to fetch deals" }

/-- DealsController.getDealsByPipeline: try res.json(deals); catch
res.status(500).json({ error: 'Failed to fetch deals by pipeline' }). -/
def getDealsByPipeline (c : HubspotClient) (pipelineId : String) :
    HttpResponse :=
  match DealsService.getDealsByPipeline c pipelineId with
  | .ok deals => { status := 200, body := .dealsJson deals }
  | .error _ =>
      { status := 500, body := .errJson "Failed to fetch deals by pipeline" }

/-- DealsController.getDealById: try res.json(deal); catch
res.status(500).json({ error: `Failed to fetch deal ${dealId}` }). -/
def getDealById (c : HubspotClient) (dealId : String) : HttpResponse :=
  match DealsService.getDealById c dealId with
  | .ok deal => { status := 200, body := .dealJson deal }
  | .error _ =>
      { status := 500, body := .errJson ("Failed to fetch deal " ++ dealId) }

/-- DealsController.createDeal: try res.status(201).json(newDeal); catch
res.status(500).json({ error: 'Failed to create deal' }). -/
def createDeal (c : HubspotClient) (dealData : DealData) : HttpResponse :=
  match DealsService.createDeal c dealData with
  | .ok newDeal => { status := 201, body := .dealJson newDeal }
  | .error _ => { status := 500, body := .errJson "Failed to create deal" }

/-- DealsController.updateDeal: try res.json(updatedDeal); catch
res.status(500).json({ error: `Failed to update deal ${dealId}` }). -/
def updateDeal (c : HubspotClient) (dealId : String) (dealData : DealData) :
    HttpResponse :=
  match DealsService.updateDeal c dealId dealData with
  | .ok updatedDeal => { status := 200, body := .dealJson updatedDeal }
  | .error _ =>
      { status := 500, body := .errJson ("Failed to update deal " ++ dealId) }

end DealsController

/-- One segment of an Express route pattern: a literal path segment or a
named parameter segment. -/
inductive Seg where
  | lit (s : String)
  | param (name : String)
deriving DecidableEq

/-- The GET handlers registered on the deals router. -/
inductive DealsGetRoute where
  | allDeals
  | byPipeline
  | byId
deriving DecidableEq

/-- The GET routes of the deals router in registration order:
router.get('/'), router.get('/pipeline/:pipelineId'),
router.get('/:dealId'). -/
def dealsGetRoutes : List (List Seg × DealsGetRoute) :=
  [([], .allDeals),
   ([.lit "pipeline", .param "pipelineId"], .byPipeline),
   ([.param "dealId"], .byId)]

/-- Match a route pattern against the path segments of a request, returning
the parameter bindings on success (Express path matching, one pattern). -/
def matchSegs : List Seg → List String → Option (List (String × String))
  | [], [] => some []
  | .lit s :: pat, t :: ts => if s = t then matchSegs pat ts else none
  | .param n :: pat, t :: ts => (matchSegs pat ts).map (fun bs => (n, t) :: bs)
  | _, _ => none

/-- Express dispatch: try the registered routes in registration order and
take the first whose pattern matches the request path. -/
def dispatchGet (routes : List (List Seg × DealsGetRoute))
    (path : List String) : Option (DealsGetRoute × List (String × String)) :=
  match routes with
  | [] => none
  | (pat, h) :: rest =>
      match matchSegs pat path with
      | some bs => some (h, bs)
      | none => dispatchGet rest path

/-- A remote client whose every call fails with a not-found error, the
behaviour of the HubSpot client for an absent object id. -/
def notFoundClient : HubspotClient :=
  { getAll := .error .notFound
    doSearch := fun _ => .error .notFound
    getById := fun _ => .error .notFound
    create := fun _ => .error .notFound
    update := fun _ _ => .error .notFound }

/-- A concrete deal used to exercise the handlers on a succeeding client. -/
def sampleDeal : Deal :=
  { id := "42", properties := [("dealname", "Big Deal")] }

/-- A remote client whose every call succeeds with the sample deal. -/
def okClient : HubspotClient :=
  { getAll := .ok { results := [sampleDeal] }
    doSearch := fun _ => .ok { results := [sampleDeal] }
    getById := fun _ => .ok sampleDeal
    create := fun _ => .ok sampleDeal
    update := fun _ _ => .ok sampleDeal }

end Hubspot

namespace Store

/-- Modelled from the spec: a keyed upsert on a list-shaped store (the code
of KeyValueStore.put and VectorIndex.upsert is not under src/).  If an element
with the same key exists it is overwritten in place, otherwise the new element
is appended at the end. -/
def upsertBy {α : Type} (κ : α → String) (s : List α) (a : α) : List α :=
  if κ a ∈ s.map κ then s.map (fun x => if κ x = κ a then a else x)
  else s ++ [a]

/-- Modelled from the spec: keyed lookup on a list-shaped store, returning
the first element with the given key or none (the NotFound outcome). -/
def findBy {α : Type} (κ : α → String) : List α → String → Option α
  | [], _ => none
  | x :: xs, k => if κ x = k then some x else findBy κ xs k

/-- Modelled from the spec: a refresh pass over one store, upserting the
element built from each fetched remote object in order. -/
def foldUpsert {α β : Type} (κ : α → String) (mk : β → α)
    (s : List α) (l : List β) : List α :=
  l.foldl (fun st o => upsertBy κ st (mk o)) s

/-- The element built from the last object in the batch that carries the
given key, if any (later objects take priority). -/
def lastMk {α β : Type} (κ : α → String) (mk : β → α) :
    List β → String → Option α
  | [], _ => none
  | o :: l, k =>
      match lastMk κ mk l k with
      | some a => some a
      | none => if κ (mk o) = k then some (mk o) else none

/-- Modelled from the spec: an EntityRecord of the KeyValueStore (the store
code is not under src/): object type, object id, the property map returned by
the remote source, and the timestamp of the last successful refresh. -/
structure EntityRecord where
  objectType : String
  objectId : String
  properties : List (String × String)
  refreshedAt : Nat
deriving DecidableEq

/-- Modelled from the spec: the storage key of an EntityRecord, the object
type concatenated with the object id. -/
def storageKey (r : EntityRecord) : String :=
  r.objectType ++ "_" ++ r.objectId

/-- Modelled from the spec: one entity of a given type as fetched from the
remote collaborator, an id plus a raw property map. -/
structure RemoteObject where
  objectId : String
  properties : List (String × String)
deriving DecidableEq

/-- Modelled from the spec: the text embedded for an entity, derived
deterministically from a fixed subset of its properties (name and description
fields concatenated in a stable order). -/
def sourceText (r : EntityRecord) : String :=
  String.intercalate " "
    ((r.properties.filter
        (fun p => p.1 = "name" ∨ p.1 = "description")).map (fun p => p.2))

/-- Modelled from the spec: build the EntityRecord for a fetched remote
object, stamping the refresh time. -/
def mkRecord (objectType : String) (t : Nat) (o : RemoteObject) :
    EntityRecord :=
  { objectType := objectType
    objectId := o.objectId
    properties := o.properties
    refreshedAt := t }

/-- Modelled from the spec: a VectorIndex entry: the composite id shared with
the owning EntityRecord, the embedding vector, the embedded source text, the
display metadata and the refresh timestamp. -/
structure VectorEntry where
  id : String
  embedding : List ℚ
  sourceText : String
  metadata : List (String × String)
  refreshedAt : Nat
deriving DecidableEq

/-- Modelled from the spec: build the VectorEntry for a fetched remote
object, embedding its source text via the embedding function. -/
def mkEntry (embed : String → List ℚ) (objectType : String) (t : Nat)
    (o : RemoteObject) : VectorEntry :=
  { id := storageKey (mkRecord objectType t o)
    embedding := embed (sourceText (mkRecord objectType t o))
    sourceText := sourceText (mkRecord objectType t o)
    metadata := o.properties
    refreshedAt := t }

/-- Modelled from the spec: the KeyValueStore contents, an ordered list of
key/record pairs. -/
abbrev KeyValueStore := List (String × EntityRecord)

/-- Modelled from the spec: the VectorIndex contents, a list of entries
addressable by their composite id. -/
abbrev VectorIndex := List VectorEntry

/-- The key of a KeyValueStore cell. -/
def cellKey : String × EntityRecord → String := Prod.fst

/-- The id of a VectorIndex entry. -/
def entryId (e : VectorEntry) : String := e.id

/-- Modelled from the spec: KeyValueStore.put, an upsert that overwrites any
existing value for the key. -/
def put (s : KeyValueStore) (k : String) (r : EntityRecord) : KeyValueStore :=
  upsertBy cellKey s (k, r)

/-- Modelled from the spec: VectorIndex.upsert, replacing the entry with the
same id when present and inserting otherwise. -/
def vupsert (idx : VectorIndex) (e : VectorEntry) : VectorIndex :=
  upsertBy entryId idx e

/-- Modelled from the spec: RefreshOrchestrator.refresh over one fetched
batch: for each remote object in order, write its EntityRecord to the
KeyValueStore and upsert its VectorEntry into the VectorIndex. -/
def refresh (embed : String → List ℚ) (objectType : String) (t : Nat)
    (objs : List RemoteObject) (st : KeyValueStore × VectorIndex) :
    KeyValueStore × VectorIndex :=
  objs.foldl
    (fun st o =>
      (put st.1 (storageKey (mkRecord objectType t o)) (mkRecord objectType t o),
       vupsert st.2 (mkEntry embed objectType t o)))
    st

/-- Modelled from the spec: a well-formed KeyValueStore has no two cells with
the same key and every cell's key is the storage key of its record. -/
def KVWellFormed (s : KeyValueStore) : Prop :=
  (s.map cellKey).Nodup ∧ ∀ p ∈ s, p.1 = storageKey p.2

/-- Modelled from the spec: the dot product of two embedding vectors
(truncating to the common length). -/
def dotQ : List ℚ → List ℚ → ℚ
  | a :: xs, b :: ys => a * b + dotQ xs ys
  | _, _ => 0

/-- Modelled from the spec: the cosine similarity of two embedding vectors
(zero when either vector has zero norm). -/
noncomputable def cosineSim (x y : List ℚ) : ℝ :=
  ((dotQ x y : ℚ) : ℝ) /
    (Real.sqrt ((dotQ x x : ℚ) : ℝ) * Real.sqrt ((dotQ y y : ℚ) : ℝ))

/-- A query hit: an index entry together with its similarity score. -/
structure QueryHit where
  entry : VectorEntry
  score : ℝ

/-- Modelled from the spec: the ranking of query hits — higher similarity
first, ties broken by most recent refreshedAt, then by id ascending. -/
def hitRank (a b : QueryHit) : Prop :=
  b.score < a.score ∨
    (a.score = b.score ∧
      (b.entry.refreshedAt < a.entry.refreshedAt ∨
        (a.entry.refreshedAt = b.entry.refreshedAt ∧ a.entry.id ≤ b.entry.id)))

noncomputable instance : DecidableRel hitRank := fun a b => by
  unfold hitRank; infer_instance

instance : IsTotal QueryHit hitRank where
  total a b := by
    unfold hitRank
    rcases lt_trichotomy a.score b.score with h | h | h
    · exact Or.inr (Or.inl h)
    · rcases lt_trichotomy a.entry.refreshedAt b.entry.refreshedAt with h2 | h2 | h2
      · exact Or.inr (Or.inr ⟨h.symm, Or.inl h2⟩)
      · rcases le_total a.entry.id b.entry.id with h3 | h3
        · exact Or.inl (Or.inr ⟨h, Or.inr ⟨h2, h3⟩⟩)
        · exact Or.inr (Or.inr ⟨h.symm, Or.inr ⟨h2.symm, h3⟩⟩)
      · exact Or.inl (Or.inr ⟨h, Or.inl h2⟩)
    · exact Or.inl (Or.inl h)

instance : IsTrans QueryHit hitRank where
  trans a b c hab hbc := by
    unfold hitRank at *
    rcases hab with hab | ⟨hs, hab⟩
    · rcases hbc with hbc | ⟨hs', _⟩
      · exact Or.inl (lt_trans hbc hab)
      · exact Or.inl (hs' ▸ hab)
    · rcases hbc with hbc | ⟨hs', hbc⟩
      · exact Or.inl (hs ▸ hbc)
      · refine Or.inr ⟨hs.trans hs', ?_⟩
        rcases hab with hab | ⟨ht, hab⟩
        · rcases hbc with hbc | ⟨ht', _⟩
          · exact Or.inl (lt_trans hbc hab)
          · exact Or.inl (ht' ▸ hab)
        · rcases hbc with hbc | ⟨ht', hbc⟩
          · exact Or.inl (ht ▸ hbc)
          · exact Or.inr ⟨ht.trans ht', le_trans hab hbc⟩

/-- Modelled from the spec: score every index entry against the query
embedding. -/
noncomputable def scoreAll (idx : VectorIndex) (q : List ℚ) : List QueryHit :=
  idx.map (fun e => { entry := e, score := cosineSim q e.embedding })

/-- Modelled from the spec: VectorIndex.query(embedding, k) — rank all
entries by similarity (ties by refreshedAt, then id) and return the first k. -/
noncomputable def query (idx : VectorIndex) (q : List ℚ) (k : Nat) :
    List QueryHit :=
  (List.insertionSort hitRank (scoreAll idx q)).take k

/-- A concrete one-element remote batch used as a witness input. -/
def sampleObjs : List RemoteObject :=
  [{ objectId := "42", properties := [("name", "Acme"), ("domain", "acme.com")] }]

/-- A concrete embedding function used as a witness input. -/
def embed0 : String → List ℚ := fun _ => [1]

/-- A concrete EntityRecord used as a witness input. -/
def sampleRecord : EntityRecord :=
  { objectType := "company", objectId := "7"
    properties := [("name", "Other")], refreshedAt := 1 }

/-- A concrete well-formed store state used as a witness input. -/
def sampleStore : KeyValueStore × VectorIndex :=
  ([("company_7", sampleRecord)], [])

end Store

namespace Hubspot

/-- C9: every DealsService method is failure-transparent: on any error from
the remote client it rethrows the identical error, and on success it returns
the remote client's result unchanged — i.e. each method is exactly the
corresponding client call with its success projection mapped over it. -/
theorem dealsService_failure_transparent :
    ∀ (c : HubspotClient) (pipelineId dealId : String) (body : DealData),
      DealsService.getAllDeals c = c.getAll.map (fun p => p.results) ∧
      DealsService.getDealsByPipeline c pipelineId =
        (c.doSearch
            { filterGroups := [{ filters := [{ propertyName := "pipeline",
                                               operator := "EQ",
                                               value := pipelineId }] }] }).map
          (fun p => p.results) ∧
      DealsService.getDealById c dealId = c.getById dealId ∧
      DealsService.createDeal c body = c.create { properties := body } ∧
      DealsService.updateDeal c dealId body =
        c.update dealId { properties := body } := by
  intro c pipelineId dealId body
  refine ⟨?_, ?_, ?_, ?_, ?_⟩
  · cases h : c.getAll <;> simp [DealsService.getAllDeals, h, Except.map]
  · cases h : c.doSearch
        { filterGroups := [{ filters := [{ propertyName := "pipeline",
                                           operator := "EQ",
                                           value := pipelineId }] }] } <;>
      simp [DealsService.getDealsByPipeline, h, Except.map]
  · cases h : c.getById dealId <;> simp [DealsService.getDealById, h]
  · cases h : c.create { properties := body } <;>
      simp [DealsService.createDeal, h]
  · cases h : c.update dealId { properties := body } <;>
      simp [DealsService.updateDeal, h]

/-- C2: every exposed deals operation, on every input and every remote
behaviour, responds either with a success payload or with a typed failure
response of status 500; and whenever the remote client call fails, the
failure is surfaced to the caller as exactly that 500 failure response,
never as an uncaught exception and never silently swallowed. -/
theorem dealsController_result_or_500 :
    ∀ (c : HubspotClient) (pipelineId dealId : String) (body : DealData),
      ((∃ ds, DealsController.getAllDeals c =
          { status := 200, body := .dealsJson ds }) ∨
        DealsController.getAllDeals c =
          { status := 500, body := .errJson "Failed to fetch deals" }) ∧
      (∀ e, c.getAll = .error e →
        DealsController.getAllDeals c =
          { status := 500, body := .errJson "Failed to fetch deals" }) ∧
      ((∃ ds, DealsController.getDealsByPipeline c pipelineId =
          { status := 200, body := .dealsJson ds }) ∨
        DealsController.getDealsByPipeline c pipelineId =
          { status := 500,
            body := .errJson "Failed to fetch deals by pipeline" }) ∧
      (∀ e f, c.doSearch f = .error e →
        DealsService.getDealsByPipeline c pipelineId = .error e →
        DealsController.getDealsByPipeline c pipelineId =
          { status := 500,
            body := .errJson "Failed to fetch deals by pipeline" }) ∧
      ((∃ d, DealsController.getDealById c dealId =
          { status := 200, body := .dealJson d }) ∨
        DealsController.getDealById c dealId =
          { status := 500,
            body := .errJson ("Failed to fetch deal " ++ dealId) }) ∧
      (∀ e, c.getById dealId = .error e →
        DealsController.getDealById c dealId =
          { status := 500,
            body := .errJson ("Failed to fetch deal " ++ dealId) }) ∧
      ((∃ d, DealsController.createDeal c body =
          { status := 201, body := .dealJson d }) ∨
        DealsController.createDeal c body =
          { status := 500, body := .errJson "Failed to create deal" }) ∧
      (∀ e, c.create { properties := body } = .error e →
        DealsController.createDeal c body =
          { status := 500, body := .errJson "Failed to create deal" }) ∧
      ((∃ d, DealsController.updateDeal c dealId body =
          { status := 200, body := .dealJson d }) ∨
        DealsController.updateDeal c dealId body =
          { status := 500,
            body := .errJson ("Failed to update deal " ++ dealId) }) ∧
      (∀ e, c.update dealId { properties := body } = .error e →
        DealsController.updateDeal c dealId body =
          { status := 500,
            body := .errJson ("Failed to update deal " ++ dealId) }) := by
  intro c pipelineId dealId body
  refine ⟨?_, ?_, ?_, ?_, ?_, ?_, ?_, ?_, ?_, ?_⟩
  · cases h : c.getAll with
    | ok p => exact Or.inl ⟨p.results, by
        simp [DealsController.getAllDeals, DealsService.getAllDeals, h]⟩
    | error e => exact Or.inr (by
        simp [DealsController.getAllDeals, DealsService.getAllDeals, h])
  · intro e he
    simp [DealsController.getAllDeals, DealsService.getAllDeals, he]
  · cases h : DealsService.getDealsByPipeline c pipelineId with
    | ok ds => exact Or.inl ⟨ds, by simp [DealsController.getDealsByPipeline, h]⟩
    | error e => exact Or.inr (by simp [DealsController.getDealsByPipeline, h])
  · intro e f _ hs
    simp [DealsController.getDealsByPipeline, hs]
  · cases h : c.getById dealId with
    | ok d => exact Or.inl ⟨d, by
        simp [DealsController.getDealById, DealsService.getDealById, h]⟩
    | error e => exact Or.inr (by
        simp [DealsController.getDealById, DealsService.getDealById, h])
  · intro e he
    simp [DealsController.getDealById, DealsService.getDealById, he]
  · cases h : c.create { properties := body } with
    | ok d => exact Or.inl ⟨d, by
        simp [DealsController.createDeal, DealsService.createDeal, h]⟩
    | error e => exact Or.inr (by
        simp [DealsController.createDeal, DealsService.createDeal, h])
  · intro e he
    simp [DealsController.createDeal, DealsService.createDeal, he]
  · cases h : c.update dealId { properties := body } with
    | ok d => exact Or.inl ⟨d, by
        simp [DealsController.updateDeal, DealsService.updateDeal, h]⟩
    | error e => exact Or.inr (by
        simp [DealsController.updateDeal, DealsService.updateDeal, h])
  · intro e he
    simp [DealsController.updateDeal, DealsService.updateDeal, he]

/-- Witness for C2 at a concrete failing client: the failure of the remote
call is surfaced as the 500 failure response for fetch-by-id and create. -/
theorem dealsController_result_or_500_witness :
    notFoundClient.getById "missing-id" = .error .notFound ∧
    DealsController.getDealById notFoundClient "missing-id" =
      { status := 500, body := .errJson "Failed to fetch deal missing-id" } ∧
    DealsController.createDeal notFoundClient [("dealname", "X")] =
      { status := 500, body := .errJson "Failed to create deal" } :=
  ⟨rfl,
   (dealsController_result_or_500 notFoundClient "p" "missing-id"
        [("dealname", "X")]).2.2.2.2.2.1 .notFound rfl,
   (dealsController_result_or_500 notFoundClient "p" "missing-id"
        [("dealname", "X")]).2.2.2.2.2.2.2.1 .notFound rfl⟩

end Hubspot

namespace Hubspot

/-- C8: a successful createDeal responds with HTTP status 201 and the created
object, the payload sent to the remote client is exactly the request body
wrapped as an object with a single properties field, and every other handler
responds with the default 200 status on success. -/
theorem createDeal_201_wrapped_body :
    ∀ (c : HubspotClient) (body : DealData) (pipelineId dealId : String),
      DealsService.createDeal c body = c.create { properties := body } ∧
      (∀ d, c.create { properties := body } = .ok d →
        DealsController.createDeal c body =
          { status := 201, body := .dealJson d }) ∧
      (∀ p, c.getAll = .ok p →
        DealsController.getAllDeals c =
          { status := 200, body := .dealsJson p.results }) ∧
      (∀ ds, DealsService.getDealsByPipeline c pipelineId = .ok ds →
        DealsController.getDealsByPipeline c pipelineId =
          { status := 200, body := .dealsJson ds }) ∧
      (∀ d, c.getById dealId = .ok d →
        DealsController.getDealById c dealId =
          { status := 200, body := .dealJson d }) ∧
      (∀ d, c.update dealId { properties := body } = .ok d →
        DealsController.updateDeal c dealId body =
          { status := 200, body := .dealJson d }) := by
  intro c body pipelineId dealId
  refine ⟨?_, ?_, ?_, ?_, ?_, ?_⟩
  · cases h : c.create { properties := body } <;>
      simp [DealsService.createDeal, h]
  · intro d hd
    simp [DealsController.createDeal, DealsService.createDeal, hd]
  · intro p hp
    simp [DealsController.getAllDeals, DealsService.getAllDeals, hp]
  · intro ds hds
    simp [DealsController.getDealsByPipeline, hds]
  · intro d hd
    simp [DealsController.getDealById, DealsService.getDealById, hd]
  · intro d hd
    simp [DealsController.updateDeal, DealsService.updateDeal, hd]

/-- Witness for C8 at a concrete succeeding client: create responds 201 with
the created deal, and fetch-by-id responds 200. -/
theorem createDeal_201_wrapped_body_witness :
    okClient.create { properties := [("dealname", "X")] } = .ok sampleDeal ∧
    DealsController.createDeal okClient [("dealname", "X")] =
      { status := 201, body := .dealJson sampleDeal } ∧
    DealsController.getDealById okClient "42" =
      { status := 200, body := .dealJson sampleDeal } :=
  ⟨rfl,
   (createDeal_201_wrapped_body okClient [("dealname", "X")] "p" "42").2.1
     sampleDeal rfl,
   (createDeal_201_wrapped_body okClient [("dealname", "X")] "p" "42").2.2.2.2.1
     sampleDeal rfl⟩

/-- C1 counterexample: at the concrete input of a remote client that signals
an absent deal id as a not-found error (the HubSpot client behaviour per the
specification's remote-interface contract), getDealById for "missing-id"
surfaces a failure status 500 with an error payload to the caller — it does
not return a NotFound result as a normal, non-error outcome, so the claim as
stated is false on this code. -/
theorem getDealById_missing_id_surfaces_500 :
    (DealsController.getDealById notFoundClient "missing-id").status = 500 ∧
    (DealsController.getDealById notFoundClient "missing-id").body =
      .errJson "Failed to fetch deal missing-id" :=
  ⟨rfl, rfl⟩

/-- C1 amended: when the remote client reports a lookup of an absent deal id
as an error, getDealById surfaces the miss to the caller as a handled failure
result with status 500 and an error payload; no exception escapes to the
caller. -/
theorem getDealById_absent_id_fails_500 :
    ∀ (c : HubspotClient) (dealId : String) (e : RemoteError),
      c.getById dealId = .error e →
      DealsController.getDealById c dealId =
        { status := 500,
          body := .errJson ("Failed to fetch deal " ++ dealId) } := by
  intro c dealId e he
  simp [DealsController.getDealById, DealsService.getDealById, he]

/-- Witness for the amended C1 at the concrete not-found client. -/
theorem getDealById_absent_id_fails_500_witness :
    notFoundClient.getById "missing-id" = .error .notFound ∧
    DealsController.getDealById notFoundClient "missing-id" =
      { status := 500, body := .errJson ("Failed to fetch deal " ++ "missing-id") } :=
  ⟨rfl, getDealById_absent_id_fails_500 notFoundClient "missing-id" .notFound rfl⟩

/-- C10: getDealsByPipeline is exactly a remote search whose single filter
group contains the single filter (propertyName pipeline, operator EQ, value
pipelineId); and the deals router, matching routes in registration order,
dispatches a GET of deals/pipeline/X to the byPipeline handler with the
pipelineId bound to X — never to the byId handler. -/
theorem getDealsByPipeline_filter_and_route :
    ∀ (c : HubspotClient) (pipelineId x : String),
      DealsService.getDealsByPipeline c pipelineId =
        (c.doSearch
            { filterGroups := [{ filters := [{ propertyName := "pipeline",
                                               operator := "EQ",
                                               value := pipelineId }] }] }).map
          (fun p => p.results) ∧
      dispatchGet dealsGetRoutes ["pipeline", x] =
        some (.byPipeline, [("pipelineId", x)]) := by
  intro c pipelineId x
  constructor
  · cases h : c.doSearch
        { filterGroups := [{ filters := [{ propertyName := "pipeline",
                                           operator := "EQ",
                                           value := pipelineId }] }] } <;>
      simp [DealsService.getDealsByPipeline, h, Except.map]
  · simp [dispatchGet, dealsGetRoutes, matchSegs]

end Hubspot

namespace Store

section GenericStore

variable {α β : Type} (κ : α → String) (mk : β → α)

theorem map_upsertBy (s : List α) (a : α) :
    (upsertBy κ s a).map κ =
      if κ a ∈ s.map κ then s.map κ else s.map κ ++ [κ a] := by
  unfold upsertBy
  by_cases h : κ a ∈ s.map κ
  · rw [if_pos h, if_pos h, List.map_map]
    refine List.map_congr_left ?_
    intro x _
    by_cases hxa : κ x = κ a
    · simp [Function.comp, hxa]
    · simp [Function.comp, hxa]
  · rw [if_neg h, if_neg h]
    simp

theorem findBy_eq_none (s : List α) (k : String) (h : k ∉ s.map κ) :
    findBy κ s k = none := by
  induction s with
  | nil => rfl
  | cons x xs ih =>
      simp only [List.map_cons, List.mem_cons] at h
      push_neg at h
      simp only [findBy]
      rw [if_neg (fun hh => h.1 hh.symm)]
      exact ih h.2

theorem findBy_append (s t : List α) (k : String) :
    findBy κ (s ++ t) k =
      match findBy κ s k with
      | some x => some x
      | none => findBy κ t k := by
  induction s with
  | nil => simp [findBy]
  | cons x xs ih =>
      by_cases h : κ x = k
      · simp [findBy, h]
      · simp [findBy, h, ih]

theorem findBy_mapOverwrite (s : List α) (a : α) (k : String) :
    findBy κ (s.map (fun x => if κ x = κ a then a else x)) k =
      if k = κ a then (if κ a ∈ s.map κ then some a else none)
      else findBy κ s k := by
  induction s with
  | nil => simp [findBy]
  | cons x xs ih =>
      simp only [List.map_cons, findBy]
      by_cases hx : κ x = κ a
      · rw [if_pos hx]
        by_cases hk : κ a = k
        · have hmem : κ a ∈ κ x :: List.map κ xs := by
            rw [← hx]; exact List.mem_cons_self _ _
          rw [if_pos hk, if_pos hk.symm, if_pos hmem]
        · have hk' : ¬(k = κ a) := fun h => hk h.symm
          rw [if_neg hk, ih, if_neg hk', if_neg hk',
            if_neg (fun h => hk (hx.symm.trans h))]
      · rw [if_neg hx]
        by_cases hxk : κ x = k
        · have hne : ¬(k = κ a) := fun h => hx (hxk.trans h)
          rw [if_pos hxk, if_neg hne, if_pos hxk]
        · rw [if_neg hxk, ih]
          by_cases hk : k = κ a
          · rw [if_pos hk, if_pos hk]
            by_cases hmem : κ a ∈ List.map κ xs
            · rw [if_pos hmem, if_pos (List.mem_cons_of_mem _ hmem)]
            · rw [if_neg hmem,
                if_neg (fun hmem' =>
                  (List.mem_cons.mp hmem').elim (fun h => hx h.symm) hmem)]
          · rw [if_neg hk, if_neg hk, if_neg hxk]

theorem findBy_upsertBy (s : List α) (a : α) (k : String) :
    findBy κ (upsertBy κ s a) k =
      if k = κ a then some a else findBy κ s k := by
  unfold upsertBy
  by_cases h : κ a ∈ s.map κ
  · rw [if_pos h, findBy_mapOverwrite]
    by_cases hk : k = κ a
    · rw [if_pos hk, if_pos h, if_pos hk]
    · rw [if_neg hk, if_neg hk]
  · rw [if_neg h, findBy_append]
    by_cases hk : k = κ a
    · subst hk
      rw [findBy_eq_none κ s _ h]
      simp [findBy]
    · have hne : ¬(κ a = k) := fun h' => hk h'.symm
      cases hs : findBy κ s k <;> simp [findBy, hs, hne, hk]

end GenericStore

end Store

namespace Store

section GenericFold

variable {α β : Type} (κ : α → String) (mk : β → α)

theorem foldUpsert_nil (s : List α) : foldUpsert κ mk s [] = s := rfl

theorem foldUpsert_cons (s : List α) (o : β) (l : List β) :
    foldUpsert κ mk s (o :: l) = foldUpsert κ mk (upsertBy κ s (mk o)) l := rfl

theorem findBy_foldUpsert (l : List β) (s : List α) (k : String) :
    findBy κ (foldUpsert κ mk s l) k =
      match lastMk κ mk l k with
      | some a => some a
      | none => findBy κ s k := by
  induction l generalizing s with
  | nil => simp [foldUpsert, lastMk]
  | cons o l ih =>
      rw [foldUpsert_cons, ih]
      cases h : lastMk κ mk l k with
      | some a => simp [lastMk, h]
      | none =>
          simp only [lastMk, h]
          rw [findBy_upsertBy]
          by_cases hk : κ (mk o) = k
          · rw [if_pos hk, if_pos hk.symm]
          · rw [if_neg hk, if_neg (fun h' => hk h'.symm)]

theorem mem_keys_upsertBy_self (s : List α) (a : α) :
    κ a ∈ (upsertBy κ s a).map κ := by
  rw [map_upsertBy]
  by_cases h : κ a ∈ s.map κ
  · rw [if_pos h]; exact h
  · rw [if_neg h]; simp

theorem keys_upsertBy_superset (s : List α) (a : α) (k : String)
    (h : k ∈ s.map κ) : k ∈ (upsertBy κ s a).map κ := by
  rw [map_upsertBy]
  by_cases hm : κ a ∈ s.map κ
  · rw [if_pos hm]; exact h
  · rw [if_neg hm]; exact List.mem_append_left _ h

theorem keys_foldUpsert_superset (l : List β) (s : List α) (k : String)
    (h : k ∈ s.map κ) : k ∈ (foldUpsert κ mk s l).map κ := by
  induction l generalizing s with
  | nil => exact h
  | cons o l ih =>
      rw [foldUpsert_cons]
      exact ih _ (keys_upsertBy_superset κ _ _ _ h)

theorem mem_keys_foldUpsert (l : List β) (s : List α) (o : β) (ho : o ∈ l) :
    κ (mk o) ∈ (foldUpsert κ mk s l).map κ := by
  induction l generalizing s with
  | nil => cases ho
  | cons o' l ih =>
      rw [foldUpsert_cons]
      rcases List.mem_cons.mp ho with rfl | ho'
      · exact keys_foldUpsert_superset κ mk _ _ _ (mem_keys_upsertBy_self κ s (mk o))
      · exact ih _ ho'

theorem keys_foldUpsert_of_covered (l : List β) (s : List α)
    (h : ∀ o ∈ l, κ (mk o) ∈ s.map κ) :
    (foldUpsert κ mk s l).map κ = s.map κ := by
  induction l generalizing s with
  | nil => rfl
  | cons o l ih =>
      rw [foldUpsert_cons]
      have hkeys : (upsertBy κ s (mk o)).map κ = s.map κ := by
        rw [map_upsertBy, if_pos (h o (List.mem_cons_self o l))]
      rw [ih _ (fun o' ho' => hkeys ▸ h o' (List.mem_cons_of_mem _ ho')), hkeys]

theorem nodup_keys_upsertBy (s : List α) (a : α) (h : (s.map κ).Nodup) :
    ((upsertBy κ s a).map κ).Nodup := by
  rw [map_upsertBy]
  by_cases hm : κ a ∈ s.map κ
  · rw [if_pos hm]; exact h
  · rw [if_neg hm, ← List.concat_eq_append]
    exact h.concat hm

theorem nodup_keys_foldUpsert (l : List β) (s : List α)
    (h : (s.map κ).Nodup) : ((foldUpsert κ mk s l).map κ).Nodup := by
  induction l generalizing s with
  | nil => exact h
  | cons o l ih =>
      rw [foldUpsert_cons]
      exact ih _ (nodup_keys_upsertBy κ s (mk o) h)

theorem eq_of_keys_findBy (s₁ : List α) :
    ∀ (s₂ : List α), (s₁.map κ).Nodup → s₁.map κ = s₂.map κ →
      (∀ k, findBy κ s₁ k = findBy κ s₂ k) → s₁ = s₂ := by
  induction s₁ with
  | nil =>
      intro s₂ _ hkeys _
      cases s₂ with
      | nil => rfl
      | cons y ys => simp at hkeys
  | cons x xs ih =>
      intro s₂ hnd hkeys hfind
      cases s₂ with
      | nil => simp at hkeys
      | cons y ys =>
          simp only [List.map_cons, List.cons.injEq] at hkeys
          obtain ⟨hxy, htail⟩ := hkeys
          have hndx : κ x ∉ xs.map κ := (List.nodup_cons.mp hnd).1
          have hx : findBy κ (x :: xs) (κ x) = some x := by
            simp [findBy]
          have hy : findBy κ (y :: ys) (κ x) = some y := by
            simp [findBy, hxy.symm]
          have hval : x = y := by
            have := hfind (κ x)
            rw [hx, hy] at this
            exact Option.some.inj this
          subst hval
          have : xs = ys := by
            apply ih ys (List.nodup_cons.mp hnd).2 htail
            intro k
            by_cases hk : κ x = k
            · subst hk
              rw [findBy_eq_none κ xs _ hndx,
                findBy_eq_none κ ys _ (htail ▸ hndx)]
            · have h1 : findBy κ (x :: xs) k = findBy κ xs k := by
                simp [findBy, hk]
              have h2 : findBy κ (x :: ys) k = findBy κ ys k := by
                simp [findBy, hk]
              rw [← h1, ← h2]
              exact hfind k
          rw [this]

theorem foldUpsert_idem (l : List β) (s : List α) (h : (s.map κ).Nodup) :
    foldUpsert κ mk (foldUpsert κ mk s l) l = foldUpsert κ mk s l := by
  have hnd1 : ((foldUpsert κ mk s l).map κ).Nodup :=
    nodup_keys_foldUpsert κ mk l s h
  have hnd2 : ((foldUpsert κ mk (foldUpsert κ mk s l) l).map κ).Nodup :=
    nodup_keys_foldUpsert κ mk l _ hnd1
  apply eq_of_keys_findBy κ _ _ hnd2
  · exact keys_foldUpsert_of_covered κ mk l _
      (fun o ho => mem_keys_foldUpsert κ mk l s o ho)
  · intro k
    cases h' : lastMk κ mk l k <;>
      simp [findBy_foldUpsert, h']

theorem mem_upsertBy (s : List α) (a : α) (x : α) (hx : x ∈ upsertBy κ s a) :
    x ∈ s ∨ x = a := by
  unfold upsertBy at hx
  by_cases h : κ a ∈ s.map κ
  · rw [if_pos h] at hx
    obtain ⟨y, hy, hyx⟩ := List.mem_map.mp hx
    by_cases hya : κ y = κ a
    · rw [if_pos hya] at hyx
      exact Or.inr hyx.symm
    · rw [if_neg hya] at hyx
      exact Or.inl (hyx ▸ hy)
  · rw [if_neg h] at hx
    rcases List.mem_append.mp hx with h' | h'
    · exact Or.inl h'
    · exact Or.inr (List.mem_singleton.mp h')

theorem mem_foldUpsert (l : List β) (s : List α) (x : α)
    (hx : x ∈ foldUpsert κ mk s l) : x ∈ s ∨ ∃ o ∈ l, x = mk o := by
  induction l generalizing s with
  | nil => exact Or.inl hx
  | cons o l ih =>
      rw [foldUpsert_cons] at hx
      rcases ih _ hx with h' | ⟨o', ho', hval⟩
      · rcases mem_upsertBy κ _ _ _ h' with h'' | h''
        · exact Or.inl h''
        · exact Or.inr ⟨o, List.mem_cons_self o l, h''⟩
      · exact Or.inr ⟨o', List.mem_cons_of_mem _ ho', hval⟩

theorem countP_le_one_of_key (s : List α) (p : α → Bool) (c : String)
    (hnd : (s.map κ).Nodup) (hkey : ∀ x ∈ s, p x = true → κ x = c) :
    s.countP p ≤ 1 := by
  induction s with
  | nil => simp
  | cons x xs ih =>
      rw [List.countP_cons]
      have hndx : κ x ∉ xs.map κ := (List.nodup_cons.mp hnd).1
      by_cases hx : p x = true
      · have hcx : κ x = c := hkey x (List.mem_cons_self x xs) hx
        have hzero : xs.countP p = 0 := by
          rw [List.countP_eq_zero]
          intro a ha hpa
          exact hndx (hcx ▸ (hkey a (List.mem_cons_of_mem _ ha) hpa) ▸
            List.mem_map_of_mem κ ha)
        simp [hx, hzero]
      · have hx' : p x = false := by
          cases hpx : p x
          · rfl
          · exact absurd hpx hx
        rw [hx']
        simp only [Bool.false_eq_true, if_false, Nat.add_zero]
        exact ih (List.nodup_cons.mp hnd).2
          (fun a ha hpa => hkey a (List.mem_cons_of_mem _ ha) hpa)

end GenericFold

end Store

namespace Store

theorem refresh_fst (embed : String → List ℚ) (ot : String) (t : Nat)
    (objs : List RemoteObject) (st : KeyValueStore × VectorIndex) :
    (refresh embed ot t objs st).1 =
      foldUpsert cellKey
        (fun o => (storageKey (mkRecord ot t o), mkRecord ot t o))
        st.1 objs := by
  induction objs generalizing st with
  | nil => rfl
  | cons o l ih =>
      have hstep : refresh embed ot t (o :: l) st =
          refresh embed ot t l
            (put st.1 (storageKey (mkRecord ot t o)) (mkRecord ot t o),
             vupsert st.2 (mkEntry embed ot t o)) := rfl
      rw [hstep, ih]
      rfl

theorem refresh_snd (embed : String → List ℚ) (ot : String) (t : Nat)
    (objs : List RemoteObject) (st : KeyValueStore × VectorIndex) :
    (refresh embed ot t objs st).2 =
      foldUpsert entryId (fun o => mkEntry embed ot t o) st.2 objs := by
  induction objs generalizing st with
  | nil => rfl
  | cons o l ih =>
      have hstep : refresh embed ot t (o :: l) st =
          refresh embed ot t l
            (put st.1 (storageKey (mkRecord ot t o)) (mkRecord ot t o),
             vupsert st.2 (mkEntry embed ot t o)) := rfl
      rw [hstep, ih]
      rfl

/-- C3: refresh is idempotent: running the same refresh twice in a row, with
the remote source returning the same entities both times, leaves the
KeyValueStore and the VectorIndex in contents identical to those after the
first run. -/
theorem refresh_idempotent :
    ∀ (embed : String → List ℚ) (objectType : String) (t : Nat)
      (objs : List RemoteObject) (st : KeyValueStore × VectorIndex),
      (st.1.map cellKey).Nodup → (st.2.map entryId).Nodup →
      refresh embed objectType t objs (refresh embed objectType t objs st) =
        refresh embed objectType t objs st := by
  intro embed ot t objs st h1 h2
  apply Prod.ext
  · rw [refresh_fst, refresh_fst]
    exact foldUpsert_idem _ _ objs st.1 h1
  · rw [refresh_snd, refresh_snd]
    exact foldUpsert_idem _ _ objs st.2 h2

/-- Witness for C3 at a concrete store, embedding function and batch. -/
theorem refresh_idempotent_witness :
    ((sampleStore.1.map cellKey).Nodup ∧ (sampleStore.2.map entryId).Nodup) ∧
    refresh embed0 "company" 5 sampleObjs
        (refresh embed0 "company" 5 sampleObjs sampleStore) =
      refresh embed0 "company" 5 sampleObjs sampleStore :=
  ⟨⟨by decide, by decide⟩,
   refresh_idempotent embed0 "company" 5 sampleObjs sampleStore
     (by decide) (by decide)⟩

/-- C4: in every reachable state (well-formed stores), refresh preserves
well-formedness of both stores and leaves at most one EntityRecord per
(objectType, objectId); and a put whose key already exists overwrites in
place, leaving the key sequence unchanged (never appending a duplicate). -/
theorem refresh_at_most_one_record :
    (∀ (embed : String → List ℚ) (objectType : String) (t : Nat)
       (objs : List RemoteObject) (st : KeyValueStore × VectorIndex),
       KVWellFormed st.1 → (st.2.map entryId).Nodup →
       KVWellFormed (refresh embed objectType t objs st).1 ∧
       ((refresh embed objectType t objs st).2.map entryId).Nodup ∧
       (∀ oty oid : String,
         (refresh embed objectType t objs st).1.countP
             (fun p => decide (p.2.objectType = oty ∧ p.2.objectId = oid))
           ≤ 1)) ∧
    (∀ (s : KeyValueStore) (k : String) (r : EntityRecord),
       k ∈ s.map cellKey → (put s k r).map cellKey = s.map cellKey) := by
  constructor
  · intro embed ot t objs st hwf hnd2
    obtain ⟨hnd, hmatch⟩ := hwf
    have hndr : (((refresh embed ot t objs st).1).map cellKey).Nodup := by
      rw [refresh_fst]
      exact nodup_keys_foldUpsert _ _ objs st.1 hnd
    have hmr : ∀ p ∈ (refresh embed ot t objs st).1, p.1 = storageKey p.2 := by
      intro p hp
      rw [refresh_fst] at hp
      rcases mem_foldUpsert _ _ objs st.1 p hp with h' | ⟨o, _, rfl⟩
      · exact hmatch p h'
      · rfl
    refine ⟨⟨hndr, hmr⟩, ?_, ?_⟩
    · rw [refresh_snd]
      exact nodup_keys_foldUpsert _ _ objs st.2 hnd2
    · intro oty oid
      apply countP_le_one_of_key cellKey _ _ (oty ++ "_" ++ oid) hndr
      intro x hx hpx
      obtain ⟨h1, h2⟩ := of_decide_eq_true hpx
      have hk : cellKey x = storageKey x.2 := hmr x hx
      rw [hk]
      unfold storageKey
      rw [h1, h2]
  · intro s k r hk
    show (upsertBy cellKey s (k, r)).map cellKey = s.map cellKey
    rw [map_upsertBy]
    exact if_pos hk

/-- Witness for C4 at a concrete well-formed store and batch. -/
theorem refresh_at_most_one_record_witness :
    (KVWellFormed sampleStore.1 ∧ (sampleStore.2.map entryId).Nodup ∧
      "company_7" ∈ sampleStore.1.map cellKey) ∧
    KVWellFormed (refresh embed0 "company" 5 sampleObjs sampleStore).1 ∧
    (put sampleStore.1 "company_7" sampleRecord).map cellKey =
      sampleStore.1.map cellKey :=
  ⟨⟨⟨by decide, by decide⟩, by decide, by decide⟩,
   (refresh_at_most_one_record.1 embed0 "company" 5 sampleObjs sampleStore
       ⟨by decide, by decide⟩ (by decide)).1,
   refresh_at_most_one_record.2 sampleStore.1 "company_7" sampleRecord
     (by decide)⟩

/-- C6: refresh never deletes EntityRecords: every key bound in the
KeyValueStore before a refresh is still bound after it (possibly to an
overwritten record), even when the object no longer appears in the fetched
batch. -/
theorem refresh_never_deletes :
    ∀ (embed : String → List ℚ) (objectType : String) (t : Nat)
      (objs : List RemoteObject) (st : KeyValueStore × VectorIndex)
      (k : String),
      (∀ p, findBy cellKey st.1 k = some p →
        ∃ p', findBy cellKey (refresh embed objectType t objs st).1 k =
          some p') ∧
      (k ∈ st.1.map cellKey →
        k ∈ ((refresh embed objectType t objs st).1).map cellKey) := by
  intro embed ot t objs st k
  constructor
  · intro p hp
    rw [refresh_fst, findBy_foldUpsert]
    cases h' : lastMk cellKey
        (fun o => (storageKey (mkRecord ot t o), mkRecord ot t o)) objs k with
    | some a => exact ⟨a, by simp [h']⟩
    | none => exact ⟨p, by simp [h', hp]⟩
  · intro hk
    rw [refresh_fst]
    exact keys_foldUpsert_superset _ _ objs st.1 k hk

/-- Witness for C6: the pre-existing record under key company_7 survives a
refresh whose batch does not contain object 7. -/
theorem refresh_never_deletes_witness :
    findBy cellKey sampleStore.1 "company_7" = some ("company_7", sampleRecord) ∧
    ∃ p', findBy cellKey
        (refresh embed0 "company" 5 sampleObjs sampleStore).1 "company_7" =
      some p' :=
  ⟨by decide,
   (refresh_never_deletes embed0 "company" 5 sampleObjs sampleStore
       "company_7").1 ("company_7", sampleRecord) (by decide)⟩

end Store

namespace Store

theorem dotQ_self_nonneg (x : List ℚ) : 0 ≤ dotQ x x := by
  induction x with
  | nil => simp [dotQ]
  | cons a xs ih => simp only [dotQ]; nlinarith [mul_self_nonneg a]

theorem dotQ_sq_le (x y : List ℚ) : dotQ x y ^ 2 ≤ dotQ x x * dotQ y y := by
  induction x generalizing y with
  | nil => simp [dotQ]
  | cons a xs ih =>
      cases y with
      | nil => simp [dotQ]
      | cons b ys =>
          simp only [dotQ]
          have h1 := ih ys
          have h2 := dotQ_self_nonneg xs
          have h3 := dotQ_self_nonneg ys
          by_cases hX : dotQ xs xs = 0
          · have hD : dotQ xs ys = 0 := by
              have hle : dotQ xs ys ^ 2 ≤ 0 := by
                calc dotQ xs ys ^ 2 ≤ dotQ xs xs * dotQ ys ys := h1
                _ = 0 := by rw [hX, zero_mul]
              have hsq : dotQ xs ys ^ 2 = 0 :=
                le_antisymm hle (sq_nonneg (dotQ xs ys))
              exact pow_eq_zero_iff two_ne_zero |>.mp hsq
            rw [hX, hD]
            nlinarith [sq_nonneg a, sq_nonneg b,
              mul_nonneg (mul_self_nonneg a) h3]
          · have hXpos : 0 < dotQ xs xs := lt_of_le_of_ne h2 (Ne.symm hX)
            nlinarith [sq_nonneg (a * dotQ xs ys - b * dotQ xs xs),
              mul_nonneg (mul_self_nonneg a) (sub_nonneg.2 h1),
              mul_nonneg h2 (sub_nonneg.2 h1)]

theorem cosineSim_bounds (x y : List ℚ) :
    -1 ≤ cosineSim x y ∧ cosineSim x y ≤ 1 := by
  have hX : (0:ℝ) ≤ ((dotQ x x : ℚ) : ℝ) := by
    exact_mod_cast dotQ_self_nonneg x
  have hcs : ((dotQ x y : ℚ) : ℝ) ^ 2 ≤
      ((dotQ x x : ℚ) : ℝ) * ((dotQ y y : ℚ) : ℝ) := by
    exact_mod_cast dotQ_sq_le x y
  have habs : |((dotQ x y : ℚ) : ℝ)| ≤
      Real.sqrt ((dotQ x x : ℚ) : ℝ) * Real.sqrt ((dotQ y y : ℚ) : ℝ) := by
    rw [← Real.sqrt_sq_eq_abs, ← Real.sqrt_mul hX]
    exact Real.sqrt_le_sqrt hcs
  have hN : (0:ℝ) ≤
      Real.sqrt ((dotQ x x : ℚ) : ℝ) * Real.sqrt ((dotQ y y : ℚ) : ℝ) :=
    mul_nonneg (Real.sqrt_nonneg _) (Real.sqrt_nonneg _)
  rw [← abs_le]
  unfold cosineSim
  rcases eq_or_lt_of_le hN with hN0 | hNpos
  · rw [← hN0, div_zero, abs_zero]
    exact zero_le_one
  · rw [abs_div, abs_of_pos hNpos]
    exact div_le_one_of_le₀ habs (le_of_lt hNpos)

/-- C5: for every embedding and every k, VectorIndex.query returns the k
highest-ranked entries — the returned hits, followed by some remainder, are a
permutation of all scored entries sorted by cosine similarity with ties
broken by most recent refreshedAt and then by id ascending, every returned
hit ranks at least as high as every hit not returned, each hit carries its
cosine similarity score which lies in the closed interval from -1 to 1, and a
query against an empty index returns the empty sequence, not an error. -/
theorem query_top_k :
    ∀ (idx : VectorIndex) (q : List ℚ) (k : Nat),
      query [] q k = [] ∧
      (∀ h ∈ query idx q k,
        h.score = cosineSim q h.entry.embedding ∧
        -1 ≤ h.score ∧ h.score ≤ 1) ∧
      List.Sorted hitRank (query idx q k) ∧
      (query idx q k).length = min k idx.length ∧
      ∃ rest, (query idx q k ++ rest).Perm (scoreAll idx q) ∧
        List.Sorted hitRank (query idx q k ++ rest) ∧
        ∀ a ∈ query idx q k, ∀ b ∈ rest, hitRank a b := by
  intro idx q k
  have hperm : (List.insertionSort hitRank (scoreAll idx q)).Perm
      (scoreAll idx q) := List.perm_insertionSort _ _
  have hsorted : List.Sorted hitRank
      (List.insertionSort hitRank (scoreAll idx q)) :=
    List.sorted_insertionSort _ _
  refine ⟨by simp [query, scoreAll, List.insertionSort], ?_, ?_, ?_, ?_⟩
  · intro h hh
    have hmem : h ∈ List.insertionSort hitRank (scoreAll idx q) :=
      List.mem_of_mem_take hh
    have hmem2 : h ∈ scoreAll idx q := hperm.mem_iff.mp hmem
    obtain ⟨e, _, rfl⟩ := List.mem_map.mp hmem2
    exact ⟨rfl, (cosineSim_bounds q e.embedding).1,
      (cosineSim_bounds q e.embedding).2⟩
  · exact List.Pairwise.sublist (List.take_sublist k _) hsorted
  · rw [query, List.length_take, hperm.length_eq, scoreAll, List.length_map]
  · refine ⟨(List.insertionSort hitRank (scoreAll idx q)).drop k, ?_, ?_, ?_⟩
    · rw [query, List.take_append_drop]
      exact hperm
    · rw [query, List.take_append_drop]
      exact hsorted
    · intro a ha b hb
      have hp : List.Pairwise hitRank
          ((List.insertionSort hitRank (scoreAll idx q)).take k ++
            (List.insertionSort hitRank (scoreAll idx q)).drop k) := by
        rw [List.take_append_drop]
        exact hsorted
      exact (List.pairwise_append.mp hp).2.2 a ha b hb

end Store
